import Mathlib

/-!
# Verification of the zodkit lint-fixing scripts

Shallow embedding of the two Python scripts `fix-eslint-errors.py` and
`fix-unused-params.py` and proofs about the behaviour their specification
describes.

Python strings are modelled as `List Char` (wrapped in `String` at the
interfaces), files as their full text, and the regular expressions used by
the scripts as hand-written recognizers that implement exactly the matching
semantics of each concrete pattern (anchoring, character classes, greedy and
lazy repetition where it is observable, word boundaries and lookahead).
Character classes follow Python's `re` on ASCII input: `\w` is
`[A-Za-z0-9_]`, `\s` is `[ \t\n\r\x0b\x0c]`, `.` is any character except
newline, `$` matches at end of string or before a trailing newline.
All recursion is structural (scanners take explicit fuel) so that every
definition evaluates inside the kernel.
-/

/-- Python `\w` on ASCII input: letters, digits and underscore. -/
def isWordChar (c : Char) : Bool :=
  c.isAlphanum || c == '_'

/-- Python `\s` on ASCII input. -/
def isSpaceChar (c : Char) : Bool :=
  c == ' ' || c == '\t' || c == '\n' || c == '\r' || c == '\x0b' || c == '\x0c'

/-- Word-character test lifted to an optional character (edge of the string
counts as a non-word position, as for Python's `\b`). -/
def wordO : Option Char → Bool
  | none => false
  | some c => isWordChar c

/-- `file.readlines()`: split a text into lines, each keeping its trailing
newline; a final fragment without a newline is kept as-is; the empty text
yields no lines. -/
def readlinesAux (cur : List Char) : List Char → List (List Char)
  | [] => if cur.isEmpty then [] else [cur.reverse]
  | c :: r =>
    if c == '\n' then (cur.reverse ++ ['\n']) :: readlinesAux [] r
    else readlinesAux (c :: cur) r

/-- `file.readlines()` on a `String` file content. -/
def readlines (content : String) : List String :=
  (readlinesAux [] content.data).map (fun l => String.mk l)

/-- `file.writelines(lines)`: concatenation of the line buffers. -/
def writelines (lines : List String) : String :=
  String.join lines

/-! ## `fix-eslint-errors.py`: data model (`get_eslint_errors`) -/

/-- One entry of a `messages` array of ESLint's `--format=json` report. -/
structure EslintMessage where
  severity : Nat
  line : Nat
  ruleId : String
  message : String
deriving Repr, DecidableEq

/-- One entry of the top-level array of ESLint's `--format=json` report. -/
structure EslintFile where
  filePath : String
  messages : List EslintMessage
deriving Repr, DecidableEq

/-- The error record built by `get_eslint_errors` (lines 19-24). -/
structure LintError where
  file : String
  line : Nat
  rule : String
  message : String
deriving Repr, DecidableEq

/-- `get_eslint_errors`, lines 14-25: keep only messages with severity 2
(errors, not warnings), flattened in report order. -/
def get_eslint_errors (data : List EslintFile) : List LintError :=
  data.flatMap (fun fr =>
    (fr.messages.filter (fun m => m.severity == 2)).map (fun m =>
      { file := fr.filePath, line := m.line, rule := m.ruleId,
        message := m.message }))

/-- `json.loads(result.stdout)` on line 12: parsing the external command's
output either yields the structured report or raises; the raised decode
error is uncaught in the script, so it is modelled as `Except.error`. -/
def get_eslint_errors_run (parsed : Option (List EslintFile)) :
    Except Unit (List LintError) :=
  match parsed with
  | none => Except.error ()
  | some data => Except.ok (get_eslint_errors data)

/-! ## `fix-eslint-errors.py`: `fix_unused_vars` (lines 27-66)

The five deletion patterns of lines 52-58, each matched with `re.match`
against the whole line (the patterns are `^...$`-anchored).  For pattern
existence the lazy `.*?` is equivalent to: some `;` later on the line, with
no newline before it and only whitespace after it. -/

/-- `.*?;\s*$` starting at the given suffix: there is a `;` reachable
without crossing a newline, followed by whitespace only. -/
def dotSemiEnd : List Char → Bool
  | [] => false
  | c :: r => (c == ';' && r.all isSpaceChar) || (c != '\n' && dotSemiEnd r)

/-- `\s+` : at least one whitespace character, consumed greedily. -/
def skipSpaces1 : List Char → Option (List Char)
  | [] => none
  | c :: r => if isSpaceChar c then some (r.dropWhile isSpaceChar) else none

/-- `\w+` : at least one word character, consumed greedily. -/
def skipWord1 : List Char → Option (List Char)
  | [] => none
  | c :: r => if isWordChar c then some (r.dropWhile isWordChar) else none

/-- `^\s*KW\s+\w+\s*=.*?;\s*$` for a binding keyword `KW`
(patterns 1-3 of lines 53-55 with `KW` one of `const`, `let`, `var`). -/
def matchDeclPattern (kw : List Char) (s : List Char) : Bool :=
  let s1 := s.dropWhile isSpaceChar
  if kw.isPrefixOf s1 then
    match skipSpaces1 (s1.drop kw.length) with
    | none => false
    | some s2 =>
      match skipWord1 s2 with
      | none => false
      | some s3 =>
        match s3.dropWhile isSpaceChar with
        | '=' :: s4 => dotSemiEnd s4
        | _ => false
  else false

/-- `^\s*import\s*\{[^}]*\}\s*from.*?;\s*$` (pattern 4, line 56). -/
def matchImportBracePattern (s : List Char) : Bool :=
  let s1 := s.dropWhile isSpaceChar
  if ("import".data).isPrefixOf s1 then
    match (s1.drop 6).dropWhile isSpaceChar with
    | '{' :: s2 =>
      match s2.dropWhile (fun c => c != '}') with
      | '}' :: s3 =>
        let s4 := s3.dropWhile isSpaceChar
        if ("from".data).isPrefixOf s4 then dotSemiEnd (s4.drop 4) else false
      | _ => false
    | _ => false
  else false

/-- `^\s*import\s+\w+\s+from.*?;\s*$` (pattern 5, line 57). -/
def matchImportDefaultPattern (s : List Char) : Bool :=
  let s1 := s.dropWhile isSpaceChar
  if ("import".data).isPrefixOf s1 then
    match skipSpaces1 (s1.drop 6) with
    | none => false
    | some s2 =>
      match skipWord1 s2 with
      | none => false
      | some s3 =>
        match skipSpaces1 s3 with
        | none => false
        | some s4 =>
          if ("from".data).isPrefixOf s4 then dotSemiEnd (s4.drop 4) else false
  else false

/-- The loop of lines 60-63: the line is cleared when the first of the five
patterns matches; since the action is the same for all five, the effect is
governed by their disjunction. -/
def matchesAnyPattern (line : String) : Bool :=
  matchDeclPattern "const".data line.data ||
  matchDeclPattern "let".data line.data ||
  matchDeclPattern "var".data line.data ||
  matchImportBracePattern line.data ||
  matchImportDefaultPattern line.data

/-- Body of the per-error loop (lines 47-63): look up the line at the
1-based error line, clear it if a pattern matches.  The source indexes
`lines[line_idx]` directly (raising on an index out of range); here an
out-of-range index is a no-op and the theorems carry the in-range
hypothesis under which both agree. -/
def fix_unused_vars_step (lines : List String) (errLine : Nat) : List String :=
  let lineIdx := errLine - 1
  match lines[lineIdx]? with
  | none => lines
  | some line =>
    if matchesAnyPattern line then lines.set lineIdx "" else lines

/-- Stable insertion into a descending list (`x` goes after earlier equal
keys, matching the stability of Python's `list.sort`). -/
def insertDesc (x : Nat) : List Nat → List Nat
  | [] => [x]
  | y :: ys => if x > y then x :: y :: ys else y :: insertDesc x ys

/-- Line 45: `file_errors.sort(key=lambda x: x['line'], reverse=True)` —
a stable descending sort of the error line numbers of one file. -/
def sortLinesDesc (l : List Nat) : List Nat :=
  l.foldl (fun acc x => insertDesc x acc) []

/-- Per-file body of `fix_unused_vars` (lines 41-66): read the line buffer,
sort this file's error lines descending, clear every flagged line that
matches a deletion pattern. -/
def fix_unused_vars_file (lines : List String) (errLines : List Nat) :
    List String :=
  (sortLinesDesc errLines).foldl fix_unused_vars_step lines

/-- The whole per-file pipeline including the file round trip:
`readlines` (line 42), patch, `writelines` (line 66). -/
def fix_unused_vars_content (content : String) (errLines : List Nat) : String :=
  writelines (fix_unused_vars_file (readlines content) errLines)

/-- Line 29: the rule filter of `fix_unused_vars`. -/
def unused_var_errors (errors : List LintError) : List LintError :=
  errors.filter (fun e => e.rule == "@typescript-eslint/no-unused-vars")

/-! ## `fix-eslint-errors.py`: `fix_require_imports` (lines 68-96)

Three global `re.sub` substitutions applied file-wide in fixed order
(lines 86-93).  Every quantifier boundary in the three patterns is forced
by disjoint character classes, so matching at a given start position is
deterministic; `re.sub` scans left to right and resumes after each match. -/

/-- A quote character, Python's `[\'"]`. -/
def isQuoteChar (c : Char) : Bool :=
  c == '\'' || c == '"'

/-- `(\w+)` with capture: at least one word character, consumed greedily. -/
def takeWord1 : List Char → Option (List Char × List Char)
  | [] => none
  | c :: r =>
    if isWordChar c then some (c :: r.takeWhile isWordChar, r.dropWhile isWordChar)
    else none

/-- `\([\'"]([^\'"]+)[\'"]\)` — the argument part of a `require(...)` or
`import(...)` call: parenthesis, quote, non-empty run of non-quote
characters (captured), quote (either kind), closing parenthesis. -/
def takeCallArg : List Char → Option (List Char × List Char)
  | '(' :: r =>
    match r with
    | q :: r1 =>
      if isQuoteChar q then
        match r1.takeWhile (fun c => !isQuoteChar c),
              r1.dropWhile (fun c => !isQuoteChar c) with
        | m, q2 :: ')' :: rest =>
          if m.isEmpty then none
          else if isQuoteChar q2 then some (m, rest) else none
        | _, _ => none
      else none
    | [] => none
  | _ => none

/-- Try pattern (a) `const\s+(\w+)\s*=\s*require\([\'"]([^\'"]+)[\'"]\)` at
the current position; on success return the replacement
`import \1 from "\2"` and the unconsumed suffix. -/
def tryMatchConstRequire (s : List Char) : Option (List Char × List Char) :=
  if ("const".data).isPrefixOf s then
    match skipSpaces1 (s.drop 5) with
    | none => none
    | some s1 =>
      match takeWord1 s1 with
      | none => none
      | some (name, s2) =>
        match s2.dropWhile isSpaceChar with
        | '=' :: s3 =>
          let s4 := s3.dropWhile isSpaceChar
          if ("require".data).isPrefixOf s4 then
            match takeCallArg (s4.drop 7) with
            | none => none
            | some (m, rest) =>
              some ("import ".data ++ name ++ " from \"".data ++ m ++ ['"'], rest)
          else none
        | _ => none
  else none

/-- Try pattern (b)
`const\s+\{([^}]+)\}\s*=\s*require\([\'"]([^\'"]+)[\'"]\)` at the current
position; on success return the replacement `import { \1 } from "\2"` and
the unconsumed suffix. -/
def tryMatchDestructureRequire (s : List Char) :
    Option (List Char × List Char) :=
  if ("const".data).isPrefixOf s then
    match skipSpaces1 (s.drop 5) with
    | none => none
    | some s1 =>
      match s1 with
      | '{' :: s2 =>
        match s2.takeWhile (fun c => c != '}'), s2.dropWhile (fun c => c != '}') with
        | names, '}' :: s3 =>
          if names.isEmpty then none
          else
            match s3.dropWhile isSpaceChar with
            | '=' :: s4 =>
              let s5 := s4.dropWhile isSpaceChar
              if ("require".data).isPrefixOf s5 then
                match takeCallArg (s5.drop 7) with
                | none => none
                | some (m, rest) =>
                  some ("import \x7b ".data ++ names ++ " \x7d from \"".data
                        ++ m ++ ['"'], rest)
              else none
            | _ => none
        | _, _ => none
      | _ => none
  else none

/-- Try pattern (c) `import\([\'"]([^\'"]+)[\'"]\)` at the current
position; on success return the replacement `await import("\1")` and the
unconsumed suffix. -/
def tryMatchDynamicImport (s : List Char) : Option (List Char × List Char) :=
  if ("import".data).isPrefixOf s then
    match takeCallArg (s.drop 6) with
    | none => none
    | some (m, rest) =>
      some ("await import(\"".data ++ m ++ "\")".data, rest)
  else none

/-- `re.sub` with a position-wise deterministic pattern: scan left to
right; on a match emit the replacement and resume after the consumed text,
otherwise copy one character.  `fuel` bounds the number of steps; every
pattern here consumes at least one character per match, so `fuel =
length` suffices. -/
def reSub (try' : List Char → Option (List Char × List Char)) :
    Nat → List Char → List Char
  | 0, s => s
  | _ + 1, [] => []
  | fuel + 1, c :: r =>
    match try' (c :: r) with
    | some (rep, rest) => rep ++ reSub try' fuel rest
    | none => c :: reSub try' fuel r

/-- Per-file body of `fix_require_imports` (lines 82-96): the three
substitutions applied to the whole content, in order. -/
def fix_require_imports_content (content : String) : String :=
  let s1 := reSub tryMatchConstRequire content.data.length content.data
  let s2 := reSub tryMatchDestructureRequire s1.length s1
  let s3 := reSub tryMatchDynamicImport s2.length s2
  String.mk s3

/-- Line 70: the rule filter of `fix_require_imports`. -/
def require_import_errors (errors : List LintError) : List LintError :=
  errors.filter (fun e => e.rule == "@typescript-eslint/no-require-imports")

/-- `contains`-style substring test used to state the spec's
"the file contains ..." properties. -/
def containsSub (needle : List Char) : List Char → Bool
  | [] => needle.isPrefixOf []
  | c :: r => needle.isPrefixOf (c :: r) || containsSub needle r

/-- Substring test on `String`. -/
def containsStr (needle hay : String) : Bool :=
  containsSub needle.data hay.data

/-! ## `fix-eslint-errors.py`: `main` (lines 98-116) -/

/-- The three summary outputs of `main`: the "found" line printed before
any patch (line 102), the "remaining" line printed from a fresh ESLint run
after patching (line 113), and the reduction line printed only under the
strict comparison of line 115. -/
def main_summary (errors final_errors : List LintError) :
    String × String × Option String :=
  ("Found " ++ toString errors.length ++ " error violations",
   "Remaining errors: " ++ toString final_errors.length,
   if final_errors.length < errors.length then
     some ("🎉 Reduced errors by "
           ++ toString (errors.length - final_errors.length))
   else none)

/-- `main` as a pipeline over the two parse results of the external
command's output (before and after patching): any parse failure aborts the
whole run. -/
def eslint_main (parsed1 parsed2 : Option (List EslintFile)) :
    Except Unit (String × String × Option String) :=
  match get_eslint_errors_run parsed1 with
  | Except.error e => Except.error e
  | Except.ok errors =>
    match get_eslint_errors_run parsed2 with
    | Except.error e => Except.error e
    | Except.ok final_errors => Except.ok (main_summary errors final_errors)

/-! ## `fix-unused-params.py`: `fix_unused_param` (lines 7-32)

The substitution pattern of line 21 is `\b NAME \b (?=\s*[:,)])` (spaces
added for readability) with `NAME` a run of word characters taken from the
`(\w+)` group of the diagnostic line.  A word boundary holds between two
positions whose word-character statuses differ; the lookahead consumes
nothing. -/

/-- `\s*[:,)]` as a lookahead starting at the given suffix. -/
def lookAheadPunct (s : List Char) : Bool :=
  match s.dropWhile isSpaceChar with
  | [] => false
  | c :: _ => c == ':' || c == ',' || c == ')'

/-- Whether `\b NAME \b (?=\s*[:,)])` matches at the start of `s`, with
`prev` the subject character just before this position (`none` at the
start of the subject). -/
def paramMatchAt (name : List Char) (prev : Option Char) (s : List Char) :
    Bool :=
  name.isPrefixOf s &&
  (wordO prev != wordO s.head?) &&
  (wordO name.getLast? != wordO (s.drop name.length).head?) &&
  lookAheadPunct (s.drop name.length)

/-- `re.sub(rf'\b{name}\b(?=\s*[:,)])', f'_{name}', ·)`: scan the subject
left to right, tracking the previous subject character for the word
boundary; on a match emit `_name`, resume right after the consumed `name`
(the lookahead consumes nothing).  `fuel` bounds the steps; each step
consumes at least one character when `name` is non-empty. -/
def paramSub (name : List Char) : Nat → Option Char → List Char → List Char
  | 0, _, s => s
  | _ + 1, _, [] => []
  | fuel + 1, prev, c :: r =>
    if paramMatchAt name prev (c :: r) then
      '_' :: name ++ paramSub name fuel name.getLast?
        (List.drop name.length (c :: r))
    else
      c :: paramSub name fuel (some c) r

/-- The whole-line substitution of line 24 on `String`s. -/
def py_sub_param (name line : String) : String :=
  String.mk (paramSub name.data line.data.length none line.data)

/-- `fix_unused_param` (lines 7-32) on the in-memory line buffer of the
file: guard the 1-based line number (lines 13-15), substitute on the
flagged line (line 24), rewrite only when the line changed (lines 26-30),
report whether a fix was applied.  (The file read/write of lines 9 and
28-29 is the `readlines`/`writelines` round trip at the call site.) -/
def fix_unused_param (lines : List String) (line_num : Int)
    (param_name : String) : Bool × List String :=
  let line_idx : Int := line_num - 1
  if line_idx < 0 ∨ (lines.length : Int) ≤ line_idx then (false, lines)
  else
    match lines[line_idx.toNat]? with
    | none => (false, lines)
    | some line =>
      let new_line := py_sub_param param_name line
      if new_line ≠ line then (true, lines.set line_idx.toNat new_line)
      else (false, lines)

/-- An occurrence of `name` followed by optional whitespace and one of
`:`, `,`, `)` somewhere in the string (the claim's matchability condition,
without the word-boundary requirements of the actual pattern). -/
def hasOccur (name : List Char) : List Char → Bool
  | [] => name.isPrefixOf [] && lookAheadPunct []
  | c :: r =>
    (name.isPrefixOf (c :: r) && lookAheadPunct ((c :: r).drop name.length))
    || hasOccur name r

/-! ## `fix-unused-params.py`: `main` (lines 34-53)

The stdin line parser of line 40:
`(.+?)\((\d+),(\d+)\): error TS6133: '(\w+)' is declared but its value is
never read\.` matched with `re.match` (anchored at the start only).  The
lazy `(.+?)` tries the shortest prefix first; all other quantifier
boundaries are forced.  The filesystem is modelled as an association list
from path to file content. -/

/-- Decimal decoding of a digit run, as Python's `int(...)`. -/
def digitsToNat : List Char → Nat → Nat
  | [], acc => acc
  | c :: r, acc => digitsToNat r (acc * 10 + (c.toNat - 48))

/-- `(\d+)` with capture: at least one digit, consumed greedily, decoded. -/
def takeDigits1 : List Char → Option (Nat × List Char)
  | [] => none
  | c :: r =>
    if c.isDigit then
      some (digitsToNat (c :: r.takeWhile Char.isDigit) 0,
            r.dropWhile Char.isDigit)
    else none

/-- The part of the diagnostic pattern after the lazy group:
`\((\d+),(\d+)\): error TS6133: '(\w+)' is declared but its value is never
read\.` (anything may follow the final period, as for `re.match`). -/
def parseDiagTail (s : List Char) : Option (Nat × Nat × List Char) :=
  match s with
  | '(' :: r =>
    match takeDigits1 r with
    | none => none
    | some (ln, r1) =>
      match r1 with
      | ',' :: r2 =>
        match takeDigits1 r2 with
        | none => none
        | some (col, r3) =>
          if (")": String).data.isPrefixOf r3 then
            let r4 := r3.drop 1
            if (": error TS6133: ".data).isPrefixOf r4 then
              match r4.drop 16 with
              | q :: r5 =>
                if q == '\'' then
                  match takeWord1 r5 with
                  | none => none
                  | some (name, r6) =>
                    match r6 with
                    | q2 :: r7 =>
                      if q2 == '\'' &&
                          (" is declared but its value is never read.".data
                            ).isPrefixOf r7 then
                        some (ln, col, name)
                      else none
                    | [] => none
                else none
              | [] => none
            else none
          else none
      | _ => none
  | _ => none

/-- The lazy scan for `(.+?)`: consume at least one non-newline character,
then try the tail pattern at each subsequent position, shortest prefix
first (Python's lazy `+?` order). -/
def diagScan (accRev : List Char) : List Char → Option (String × Nat × Nat × String)
  | [] => none
  | c :: r =>
    if c == '\n' then none
    else
      match parseDiagTail r with
      | some (ln, col, name) =>
        some (String.mk (c :: accRev).reverse, ln, col, String.mk name)
      | none => diagScan (c :: accRev) r

/-- Line 40: parse one stdin line into (file path, line, column, name). -/
def parse_diag_line (l : String) : Option (String × Nat × Nat × String) :=
  diagScan [] l.data

/-- The filesystem seen by `main`: an association of path to content. -/
abbrev FS : Type := List (String × String)

/-- `os.path.exists` / `open(path)` on the modelled filesystem. -/
def fsLookup (fs : FS) (path : String) : Option String :=
  match fs.find? (fun e => e.1 == path) with
  | none => none
  | some e => some e.2

/-- Writing a file back on the modelled filesystem. -/
def fsWrite (fs : FS) (path content : String) : FS :=
  fs.map (fun e => if e.1 == path then (e.1, content) else e)

/-- The loop body of `main` (lines 38-51) for one stdin line: parse it; on
no match do nothing; on a match whose path does not exist do nothing;
otherwise run `fix_unused_param` on the file, and when it reports a fix,
write the file, count the fix and print the `Fixed:` message.  Returns the
new filesystem, the increment of `fixes_applied` and the printed message,
if any. -/
def process_stdin_line (fs : FS) (l : String) : FS × Nat × Option String :=
  match parse_diag_line l with
  | none => (fs, 0, none)
  | some (file_path, line_num, _col, param_name) =>
    match fsLookup fs file_path with
    | none => (fs, 0, none)
    | some content =>
      let lines := readlines content
      match fix_unused_param lines (Int.ofNat line_num) param_name with
      | (true, lines') =>
        (fsWrite fs file_path (writelines lines'), 1,
         some ("Fixed: " ++ file_path ++ ":" ++ toString line_num
               ++ " - prefixed " ++ String.mk ['\''] ++ param_name
               ++ String.mk ['\''] ++ " with underscore"))
      | (false, _) => (fs, 0, none)

/-- The whole of `main` over a list of stdin lines: the final filesystem,
the total `fixes_applied`, and the `Fixed:` messages in print order. -/
def params_main (fs : FS) (stdin : List String) : FS × Nat × List String :=
  match stdin with
  | [] => (fs, 0, [])
  | l :: rest =>
    let (fs1, n1, msg) := process_stdin_line fs l
    let (fs2, n2, msgs) := params_main fs1 rest
    (fs2, n1 + n2, (match msg with | none => [] | some m => [m]) ++ msgs)

/-- The 1-based line numbers of the diagnostics `main` hands to
`fix_unused_param` (those that parse and whose file exists), in the order
the fixes are applied. -/
def applied_lines (fs : FS) (stdin : List String) : List Nat :=
  match stdin with
  | [] => []
  | l :: rest =>
    match parse_diag_line l with
    | none => applied_lines fs rest
    | some (file_path, line_num, _col, _param_name) =>
      match fsLookup fs file_path with
      | none => applied_lines fs rest
      | some _ =>
        let (fs1, _, _) := process_stdin_line fs l
        line_num :: applied_lines fs1 rest

/-- `paramSub` with its canonical fuel (one unit per scanned position
suffices, since every step consumes at least one character for a
non-empty name). -/
def paramSubRun (name : List Char) (prev : Option Char) (s : List Char) :
    List Char :=
  paramSub name s.length prev s

/-- The subject character just before the position that follows `u`, when
scanning started with previous character `prev`. -/
def lastO (prev : Option Char) (u : List Char) : Option Char :=
  match u.getLast? with
  | some d => some d
  | none => prev

/-! ## Helper lemmas: `fix_unused_vars` -/

/-- The empty line matches none of the five deletion patterns. -/
theorem matchesAnyPattern_empty : matchesAnyPattern "" = false := by decide

/-- One step of the per-error loop, characterized per index. -/
theorem fix_unused_vars_step_get (lines : List String) (n : Nat)
    (hn : 1 ≤ n) (i : Nat) (line : String) (hi : lines[i]? = some line) :
    (fix_unused_vars_step lines n)[i]? =
      some (if i + 1 = n ∧ matchesAnyPattern line then "" else line) := by
  have hilen : i < lines.length := by
    rcases List.getElem?_eq_some_iff.mp hi with ⟨h, _⟩
    exact h
  cases h0 : lines[n - 1]? with
  | none =>
    have hlen : lines.length ≤ n - 1 := by
      by_contra hc
      push_neg at hc
      rw [List.getElem?_eq_getElem hc] at h0
      exact Option.noConfusion h0
    have hnc : ¬(i + 1 = n ∧ matchesAnyPattern line) := by
      rintro ⟨rfl, -⟩
      omega
    simp only [fix_unused_vars_step, h0]
    rw [if_neg hnc]
    exact hi
  | some l0 =>
    simp only [fix_unused_vars_step, h0]
    by_cases hm : matchesAnyPattern l0
    · rw [if_pos hm, List.getElem?_set]
      by_cases he : n - 1 = i
      · have hin : i + 1 = n := by omega
        have : l0 = line := by
          rw [he] at h0
          rw [h0] at hi
          exact (Option.some.injEq _ _).mp hi
        subst this
        simp [he, hilen, hin, hm]
      · have hin : ¬(i + 1 = n) := by omega
        simp [he, hi, hin]
    · rw [if_neg hm, hi]
      by_cases hin : i + 1 = n
      · have : l0 = line := by
          have : n - 1 = i := by omega
          rw [this] at h0
          rw [h0] at hi
          exact (Option.some.injEq _ _).mp hi
        subst this
        simp [hm]
      · simp [hin]

/-- The per-error loop preserves the number of lines. -/
theorem fix_unused_vars_step_length (lines : List String) (n : Nat) :
    (fix_unused_vars_step lines n).length = lines.length := by
  cases h0 : lines[n - 1]? with
  | none => simp only [fix_unused_vars_step, h0]
  | some l0 =>
    simp only [fix_unused_vars_step, h0]
    by_cases hm : matchesAnyPattern l0
    · rw [if_pos hm, List.length_set]
    · rw [if_neg hm]

/-- Folding the loop over any list of 1-based error lines preserves the
number of lines. -/
theorem fix_unused_vars_fold_length (L : List Nat) (lines : List String) :
    (L.foldl fix_unused_vars_step lines).length = lines.length := by
  induction L generalizing lines with
  | nil => rfl
  | cons n L ih =>
    simp only [List.foldl_cons]
    rw [ih, fix_unused_vars_step_length]

/-- Folding the loop over any list of 1-based error lines: a line ends up
empty exactly when it is flagged and matched, and is untouched otherwise
(processing order is irrelevant because a cleared line matches no
pattern). -/
theorem fix_unused_vars_fold_get (L : List Nat) (lines : List String)
    (hL : ∀ n ∈ L, 1 ≤ n) (i : Nat) (line : String)
    (hi : lines[i]? = some line) :
    (L.foldl fix_unused_vars_step lines)[i]? =
      some (if (i + 1) ∈ L ∧ matchesAnyPattern line then "" else line) := by
  induction L generalizing lines line with
  | nil => simpa using hi
  | cons n L ih =>
    simp only [List.foldl_cons]
    have hn : 1 ≤ n := hL n (List.mem_cons_self n L)
    have hL' : ∀ m ∈ L, 1 ≤ m := fun m hm => hL m (List.mem_cons_of_mem n hm)
    have hstep := fix_unused_vars_step_get lines n hn i line hi
    by_cases hc : i + 1 = n ∧ matchesAnyPattern line
    · rw [if_pos hc] at hstep
      have := ih (fix_unused_vars_step lines n) hL' "" hstep
      rw [this]
      have h1 : (i + 1) ∈ n :: L ∧ matchesAnyPattern line := by
        exact ⟨hc.1 ▸ List.mem_cons_self n L, hc.2⟩
      rw [if_pos h1]
      have : ¬((i + 1) ∈ L ∧ matchesAnyPattern ("" : String)) := by
        rintro ⟨-, hm⟩
        rw [matchesAnyPattern_empty] at hm
        exact Bool.noConfusion hm
      rw [if_neg this]
    · rw [if_neg hc] at hstep
      have := ih (fix_unused_vars_step lines n) hL' line hstep
      rw [this]
      by_cases h2 : (i + 1) ∈ L ∧ matchesAnyPattern line
      · rw [if_pos h2, if_pos ⟨List.mem_cons_of_mem n h2.1, h2.2⟩]
      · rw [if_neg h2]
        have : ¬((i + 1) ∈ n :: L ∧ matchesAnyPattern line) := by
          rintro ⟨hmem, hm⟩
          rcases List.mem_cons.mp hmem with h | h
          · exact hc ⟨h, hm⟩
          · exact h2 ⟨h, hm⟩
        rw [if_neg this]

/-- Membership in a stable descending insertion. -/
theorem mem_insertDesc (a x : Nat) (l : List Nat) :
    a ∈ insertDesc x l ↔ a = x ∨ a ∈ l := by
  induction l with
  | nil => simp [insertDesc]
  | cons y ys ih =>
    by_cases h : x > y
    · simp [insertDesc, h]
    · simp only [insertDesc, if_neg h, List.mem_cons, ih]
      tauto

/-- Membership is preserved by the descending sort of line 45. -/
theorem mem_sortLinesDesc (a : Nat) (l : List Nat) :
    a ∈ sortLinesDesc l ↔ a ∈ l := by
  have general : ∀ (l acc : List Nat),
      (a ∈ l.foldl (fun acc x => insertDesc x acc) acc ↔ a ∈ acc ∨ a ∈ l) := by
    intro l
    induction l with
    | nil => simp
    | cons x xs ih =>
      intro acc
      simp only [List.foldl_cons, ih, mem_insertDesc, List.mem_cons]
      tauto
  simpa using general l []

/-- Stable descending insertion preserves descending sortedness. -/
theorem insertDesc_sorted (x : Nat) (l : List Nat)
    (h : List.Sorted (· ≥ ·) l) : List.Sorted (· ≥ ·) (insertDesc x l) := by
  induction l with
  | nil => simp [insertDesc]
  | cons y ys ih =>
    rw [List.sorted_cons] at h
    by_cases hxy : x > y
    · simp only [insertDesc, if_pos hxy, List.sorted_cons, List.mem_cons]
      constructor
      · rintro b (rfl | hb)
        · omega
        · have := h.1 b hb
          omega
      · exact h
    · simp only [insertDesc, if_neg hxy, List.sorted_cons]
      constructor
      · intro b hb
        rcases (mem_insertDesc b x ys).mp hb with rfl | hb
        · omega
        · exact h.1 b hb
      · exact ih h.2

/-- The sort of line 45 produces a descending list. -/
theorem sortLinesDesc_sorted (l : List Nat) :
    List.Sorted (· ≥ ·) (sortLinesDesc l) := by
  have general : ∀ (l acc : List Nat), List.Sorted (· ≥ ·) acc →
      List.Sorted (· ≥ ·) (l.foldl (fun acc x => insertDesc x acc) acc) := by
    intro l
    induction l with
    | nil => exact fun acc h => h
    | cons x xs ih =>
      intro acc hacc
      exact ih (insertDesc x acc) (insertDesc_sorted x acc hacc)
  exact general l [] (List.sorted_nil)

/-- `String.join` with an arbitrary accumulator. -/
theorem string_join_foldl (l : List String) :
    ∀ a : String, List.foldl (fun r s => r ++ s) a l
      = a ++ List.foldl (fun r s => r ++ s) "" l := by
  induction l with
  | nil =>
    intro a
    simp
  | cons x xs ih =>
    intro a
    simp only [List.foldl_cons]
    rw [ih (a ++ x), ih ("" ++ x)]
    simp [String.append_assoc]

/-- `String.join` of a cons. -/
theorem string_join_cons (s : String) (l : List String) :
    String.join (s :: l) = s ++ String.join l := by
  simp only [String.join, List.foldl_cons]
  rw [string_join_foldl l ("" ++ s)]
  simp

/-- `writelines` produces no bytes for empty line buffers: the written
file is the same as if the empty lines were removed. -/
theorem writelines_filter (lines : List String) :
    writelines lines = writelines (lines.filter (fun l => l ≠ "")) := by
  show String.join _ = String.join _
  induction lines with
  | nil => rfl
  | cons l ls ih =>
    by_cases h : l = ""
    · subst h
      rw [string_join_cons]
      have hf : (("" : String) :: ls).filter (fun l => l ≠ "")
          = ls.filter (fun l => l ≠ "") := by simp
      rw [hf, ← ih]
      simp
    · have hf : (l :: ls).filter (fun l => l ≠ "")
          = l :: ls.filter (fun l => l ≠ "") := by simp [h]
      rw [string_join_cons, hf, string_join_cons, ih]

/-- Per-index characterization of the per-file patcher. -/
theorem fix_unused_vars_file_get (lines : List String) (errLines : List Nat)
    (h1 : ∀ n ∈ errLines, 1 ≤ n) (i : Nat) (line : String)
    (hi : lines[i]? = some line) :
    (fix_unused_vars_file lines errLines)[i]? =
      some (if (i + 1) ∈ errLines ∧ matchesAnyPattern line then "" else line) := by
  unfold fix_unused_vars_file
  rw [fix_unused_vars_fold_get (sortLinesDesc errLines) lines
    (fun n hn => h1 n ((mem_sortLinesDesc n errLines).mp hn)) i line hi]
  simp only [mem_sortLinesDesc]

/-- The per-file patcher preserves the number of in-memory lines. -/
theorem fix_unused_vars_file_length (lines : List String)
    (errLines : List Nat) :
    (fix_unused_vars_file lines errLines).length = lines.length :=
  fix_unused_vars_fold_length (sortLinesDesc errLines) lines

/-! ## Claim C1 -/

/-- C1, counterexample: the claim states that after the patcher writes the
file back, the deleted line survives as a blank line and the file's line
count is unchanged.  On the two-line file `const a = 1;\nfoo();\n` with the
single diagnostic at line 1, the written file is `foo();\n`: the flagged
line is gone entirely, the line count drops from 2 to 1, and the following
line's number shifts. -/
theorem claim_C1_counterexample :
    fix_unused_vars_content "const a = 1;\nfoo();\n" [1] = "foo();\n"
    ∧ (readlines (fix_unused_vars_content "const a = 1;\nfoo();\n" [1])).length = 1
    ∧ (readlines "const a = 1;\nfoo();\n").length = 2 := by
  refine ⟨by decide, by decide, by decide⟩

/-- C1, amended: for every file and every unused-declaration diagnostic
set (with 1-based line numbers), the in-memory line list after patching
has unchanged length, every flagged line whose text fully matches one of
the five deletion patterns is set to the empty string, and every other
line is byte-identical to the original; since the file is written by
concatenating the line buffers, the emptied lines contribute no bytes, so
they are dropped from the on-disk file (shifting subsequent line numbers)
rather than left in place as blank lines. -/
theorem claim_C1 (lines : List String) (errLines : List Nat)
    (h1 : ∀ n ∈ errLines, 1 ≤ n) :
    (fix_unused_vars_file lines errLines).length = lines.length
    ∧ (∀ i line, lines[i]? = some line →
        (fix_unused_vars_file lines errLines)[i]? =
          some (if (i + 1) ∈ errLines ∧ matchesAnyPattern line then "" else line))
    ∧ writelines (fix_unused_vars_file lines errLines)
        = writelines ((fix_unused_vars_file lines errLines).filter
            (fun l => l ≠ "")) :=
  ⟨fix_unused_vars_file_length lines errLines,
   fun i line hi => fix_unused_vars_file_get lines errLines h1 i line hi,
   writelines_filter _⟩

/-- C1, witness: the amended frame theorem applied to a concrete two-line
file with one diagnostic. -/
theorem claim_C1_witness :
    (fix_unused_vars_file ["const a = 1;\n", "foo();\n"] [1]).length = 2 :=
  (claim_C1 ["const a = 1;\n", "foo();\n"] [1] (by decide)).1

/-! ## Claim C2 -/

/-- C2, counterexample: the claim says every patching pipeline applies a
file's diagnostics from the highest line number to the lowest.  The
parameter-fix pipeline (`fix-unused-params.py` `main`) applies them in
stdin order: on a two-line file with diagnostics arriving for line 1 and
then line 2, the fixes are applied in ascending order `[1, 2]`, which is
not descending. -/
theorem claim_C2_counterexample :
    applied_lines [("a.ts", "f(x: t) \x7b\x7d\ng(y: t) \x7b\x7d\n")]
        ["a.ts(1,3): error TS6133: 'x' is declared but its value is never read.",
         "a.ts(2,3): error TS6133: 'y' is declared but its value is never read."]
      = [1, 2]
    ∧ ¬ List.Sorted (· ≥ ·)
        (applied_lines [("a.ts", "f(x: t) \x7b\x7d\ng(y: t) \x7b\x7d\n")]
          ["a.ts(1,3): error TS6133: 'x' is declared but its value is never read.",
           "a.ts(2,3): error TS6133: 'y' is declared but its value is never read."]) := by
  exact ⟨by decide, by decide⟩

/-- C2, amended: the unused-declaration patcher does sort each file's
diagnostics by line number in descending order before mutating the file
(first conjunct: the processing order produced by the sort of line 45 is
always descending); the parameter-fix pipeline instead applies diagnostics
in input order, which is nevertheless safe because its per-diagnostic edit
rewrites text within a single line and never changes the file's line count
(second conjunct). -/
theorem claim_C2 :
    (∀ errLines : List Nat, List.Sorted (· ≥ ·) (sortLinesDesc errLines))
    ∧ (∀ (lines : List String) (n : Int) (p : String),
        ((fix_unused_param lines n p).2).length = lines.length) := by
  constructor
  · exact sortLinesDesc_sorted
  · intro lines n p
    unfold fix_unused_param
    dsimp only
    split
    · rfl
    · split
      · rfl
      · split
        · simp [List.length_set]
        · rfl

/-! ## Claim C4 -/

/-- C4, counterexample: the claim states that running the
unused-declaration patcher twice in succession never changes the file
further.  Because the first run deletes the matched line from the on-disk
file (rather than leaving a blank), the diagnostic's line number denotes a
different line on the second run: on `const a = 1;\nconst b = 2;\n` with
the diagnostic at line 1, the second run deletes `const b = 2;` as well,
changing the file again. -/
theorem claim_C4_counterexample :
    fix_unused_vars_content
        (fix_unused_vars_content "const a = 1;\nconst b = 2;\n" [1]) [1]
      ≠ fix_unused_vars_content "const a = 1;\nconst b = 2;\n" [1] := by
  decide

/-- C4, amended: the patch transformation itself is idempotent on the
in-memory line list: re-applying the per-file patcher to its own output
with the same diagnostic set changes nothing, because a cleared line
matches none of the deletion patterns and every other line is unchanged.
The non-idempotence of two full runs comes solely from the write-back
dropping the emptied lines. -/
theorem claim_C4 (lines : List String) (errLines : List Nat)
    (h1 : ∀ n ∈ errLines, 1 ≤ n) :
    fix_unused_vars_file (fix_unused_vars_file lines errLines) errLines
      = fix_unused_vars_file lines errLines := by
  apply List.ext_getElem?
  intro i
  by_cases hlt : i < lines.length
  · have hi : lines[i]? = some lines[i] := List.getElem?_eq_getElem hlt
    have h₁ := fix_unused_vars_file_get lines errLines h1 i lines[i] hi
    by_cases hc : (i + 1) ∈ errLines ∧ matchesAnyPattern lines[i]
    · rw [if_pos hc] at h₁
      have h₂ := fix_unused_vars_file_get (fix_unused_vars_file lines errLines)
        errLines h1 i "" h₁
      rw [h₂, h₁]
      have hne : ¬((i + 1) ∈ errLines ∧ matchesAnyPattern ("" : String)) := by
        rintro ⟨-, hm⟩
        rw [matchesAnyPattern_empty] at hm
        exact Bool.noConfusion hm
      rw [if_neg hne]
    · rw [if_neg hc] at h₁
      have h₂ := fix_unused_vars_file_get (fix_unused_vars_file lines errLines)
        errLines h1 i lines[i] h₁
      rw [h₂, h₁, if_neg hc]
  · have hout : lines.length ≤ i := Nat.le_of_not_lt hlt
    have e1 : (fix_unused_vars_file lines errLines)[i]? = none := by
      rw [List.getElem?_eq_none_iff, fix_unused_vars_file_length]
      exact hout
    have e2 : (fix_unused_vars_file (fix_unused_vars_file lines errLines)
        errLines)[i]? = none := by
      rw [List.getElem?_eq_none_iff, fix_unused_vars_file_length,
        fix_unused_vars_file_length]
      exact hout
    rw [e1, e2]

/-- C4, witness: the amended in-memory idempotence applied to a concrete
file and diagnostic set. -/
theorem claim_C4_witness :
    fix_unused_vars_file
        (fix_unused_vars_file ["const a = 1;\n", "foo();\n"] [1]) [1]
      = fix_unused_vars_file ["const a = 1;\n", "foo();\n"] [1] :=
  claim_C4 ["const a = 1;\n", "foo();\n"] [1] (by decide)

/-! ## Claim C3 -/

/-- C3: on content that already contains the awaited dynamic import
`await import("M")`, substitution rule (c) rewrites the inner
`import("M")` again, producing `await await import("M")` — the pass is
not a no-op on already-awaited dynamic imports. -/
theorem claim_C3 :
    fix_require_imports_content "const x = 1;\nawait import(\"M\");\n"
      = "const x = 1;\nawait await import(\"M\");\n"
    ∧ containsStr "await await import(\"M\")"
        (fix_require_imports_content "const x = 1;\nawait import(\"M\");\n")
    ∧ fix_require_imports_content "await import(\"M\");" ≠ "await import(\"M\");" := by
  refine ⟨by decide, by decide, by decide⟩

/-! ## Claim C5 -/

/-- C5, counterexample: the claim expects the destructured form to become
`import { a, b } from "mod";` with single spaces inside the braces.  The
substitution keeps the captured group's surrounding whitespace and pads it
with one more space on each side, so the single-spaced string does not
occur in the output. -/
theorem claim_C5_counterexample :
    containsStr "import \x7b a, b \x7d from \"mod\";"
        (fix_require_imports_content "const \x7b a, b \x7d = require(\"mod\");")
      = false := by
  decide

/-- C5, amended: content containing `const fs = require("fs");` contains
`import fs from "fs";` afterwards (as claimed); content containing
`const { a, b } = require("mod");` contains the double-spaced
`import {  a, b  } from "mod";` afterwards, because rule (b)'s capture
keeps the spaces around the name list and the replacement template adds
one more space inside each brace. -/
theorem claim_C5 :
    fix_require_imports_content "const fs = require(\"fs\");"
      = "import fs from \"fs\";"
    ∧ containsStr "import fs from \"fs\";"
        (fix_require_imports_content "const fs = require(\"fs\");")
    ∧ fix_require_imports_content "const \x7b a, b \x7d = require(\"mod\");"
      = "import \x7b  a, b  \x7d from \"mod\";"
    ∧ containsStr "import \x7b  a, b  \x7d from \"mod\";"
        (fix_require_imports_content "const \x7b a, b \x7d = require(\"mod\");") := by
  refine ⟨by decide, by decide, by decide, by decide⟩

/-! ## Claim C6 -/

/-- C6: on a file whose line 2 is `foo(bar: string, unused: number) {}`
and a TS6133 text-stream diagnostic flagging `unused` at line 2, the
parameter-fix pass rewrites that line to contain `_unused` in place of
`unused`, and the identifier `bar` on that line is unchanged. -/
theorem claim_C6 :
    (process_stdin_line
        [("src/file.ts", "x\nfoo(bar: string, unused: number) \x7b\x7d\n")]
        "src/file.ts(2,18): error TS6133: 'unused' is declared but its value is never read.").1
      = [("src/file.ts", "x\nfoo(bar: string, _unused: number) \x7b\x7d\n")]
    ∧ (readlines "x\nfoo(bar: string, _unused: number) \x7b\x7d\n")[1]?
      = some "foo(bar: string, _unused: number) \x7b\x7d\n"
    ∧ containsStr "_unused: number" "foo(bar: string, _unused: number) \x7b\x7d\n"
    ∧ containsStr "bar: string" "foo(bar: string, _unused: number) \x7b\x7d\n" := by
  refine ⟨by decide, by decide, by decide, by decide⟩

/-! ## Claim C7 -/

/-- C7: the summary reporter prints as "found" the diagnostic count taken
before any patch, re-runs the diagnostics source after patching and prints
that fresh count as "remaining", and prints a reduction delta equal to
found minus remaining exactly when remaining is strictly less than
found. -/
theorem claim_C7 (d1 d2 : List EslintFile) :
    eslint_main (some d1) (some d2)
      = Except.ok (main_summary (get_eslint_errors d1) (get_eslint_errors d2))
    ∧ ∀ e fe : List LintError,
        (main_summary e fe).1 = "Found " ++ toString e.length ++ " error violations"
        ∧ (main_summary e fe).2.1 = "Remaining errors: " ++ toString fe.length
        ∧ ((main_summary e fe).2.2 ≠ none ↔ fe.length < e.length)
        ∧ (main_summary e fe).2.2.getD ""
          = (if fe.length < e.length
             then "🎉 Reduced errors by " ++ toString (e.length - fe.length)
             else "") := by
  refine ⟨rfl, fun e fe => ⟨rfl, rfl, ?_, ?_⟩⟩
  · by_cases h : fe.length < e.length <;> simp [main_summary, h]
  · by_cases h : fe.length < e.length <;> simp [main_summary, h]

/-! ## Claim C8 -/

/-- C8: if the external command's output does not parse as the structured
report, the run aborts with a propagated failure; in text-stream mode, a
stdin line that does not match the diagnostic format is silently skipped
(no file modified, nothing reported), and so is a matching line whose file
path does not exist. -/
theorem claim_C8 :
    (∀ parsed2, eslint_main none parsed2 = Except.error ())
    ∧ (∀ (fs : FS) (l : String), parse_diag_line l = none →
        process_stdin_line fs l = (fs, 0, none))
    ∧ (∀ (fs : FS) (l : String) (f : String) (ln col : Nat) (p : String),
        parse_diag_line l = some (f, ln, col, p) → fsLookup fs f = none →
        process_stdin_line fs l = (fs, 0, none)) := by
  refine ⟨fun parsed2 => rfl, ?_, ?_⟩
  · intro fs l h
    unfold process_stdin_line
    rw [h]
  · intro fs l f ln col p h1 h2
    unfold process_stdin_line
    simp only [h1, h2]

/-- C8, witness: the three error-handling branches at concrete inputs: an
unparsable report aborts; a malformed stdin line and a missing file are
skipped without touching the filesystem. -/
theorem claim_C8_witness :
    eslint_main none (some []) = Except.error ()
    ∧ process_stdin_line [("a.ts", "x\n")] "not a diagnostic"
      = ([("a.ts", "x\n")], 0, none)
    ∧ process_stdin_line [("a.ts", "x\n")]
        "missing.ts(1,1): error TS6133: 'p' is declared but its value is never read."
      = ([("a.ts", "x\n")], 0, none) :=
  ⟨claim_C8.1 (some []),
   claim_C8.2.1 [("a.ts", "x\n")] "not a diagnostic" (by decide),
   claim_C8.2.2 [("a.ts", "x\n")]
     "missing.ts(1,1): error TS6133: 'p' is declared but its value is never read."
     "missing.ts" 1 1 "p" (by decide) (by decide)⟩

/-! ## Helper lemmas: the parameter substitution -/

/-- The scanner's result does not depend on the fuel, as long as the fuel
covers the subject's length (each step consumes at least one character for
a non-empty name). -/
theorem paramSub_fuel_eq (name : List Char) (hname : name ≠ []) :
    ∀ (k : Nat) (s : List Char), s.length ≤ k →
      ∀ (f1 f2 : Nat) (prev : Option Char), s.length ≤ f1 → s.length ≤ f2 →
        paramSub name f1 prev s = paramSub name f2 prev s := by
  have hnpos : 0 < name.length := List.length_pos.mpr hname
  intro k
  induction k with
  | zero =>
    intro s hs f1 f2 prev h1 h2
    have hs0 : s = [] := List.length_eq_zero.mp (Nat.le_zero.mp hs)
    subst hs0
    cases f1 <;> cases f2 <;> rfl
  | succ k ih =>
    intro s hs f1 f2 prev h1 h2
    cases s with
    | nil => cases f1 <;> cases f2 <;> rfl
    | cons c r =>
      simp only [List.length_cons] at hs h1 h2
      cases f1 with
      | zero => omega
      | succ f1 =>
        cases f2 with
        | zero => omega
        | succ f2 =>
          simp only [paramSub]
          by_cases hm : paramMatchAt name prev (c :: r) = true
          · rw [if_pos hm, if_pos hm]
            have hdl : ((c :: r).drop name.length).length ≤ k := by
              rw [List.length_drop, List.length_cons]
              omega
            have e := ih ((c :: r).drop name.length) hdl f1 f2 name.getLast?
              (by rw [List.length_drop, List.length_cons]; omega)
              (by rw [List.length_drop, List.length_cons]; omega)
            rw [e]
          · rw [if_neg hm, if_neg hm]
            have e := ih r (by omega) f1 f2 (some c) (by omega) (by omega)
            rw [e]

/-- One step of the substitution scan, with canonical fuel on both
sides. -/
theorem paramSubRun_cons (name : List Char) (hname : name ≠ [])
    (prev : Option Char) (c : Char) (r : List Char) :
    paramSubRun name prev (c :: r) =
      if paramMatchAt name prev (c :: r)
      then '_' :: name ++ paramSubRun name name.getLast? ((c :: r).drop name.length)
      else c :: paramSubRun name (some c) r := by
  have hnpos : 0 < name.length := List.length_pos.mpr hname
  unfold paramSubRun
  simp only [List.length_cons]
  simp only [paramSub]
  by_cases hm : paramMatchAt name prev (c :: r) = true
  · rw [if_pos hm, if_pos hm]
    have e := paramSub_fuel_eq name hname ((c :: r).drop name.length).length
      ((c :: r).drop name.length) (Nat.le_refl _) r.length
      (((c :: r).drop name.length).length) name.getLast?
      (by rw [List.length_drop, List.length_cons]; omega) (Nat.le_refl _)
    rw [e]
  · rw [if_neg hm, if_neg hm]

/-- Peeling one character off the scanned prefix in `lastO`. -/
theorem lastO_cons (prev : Option Char) (w : Char) (ws : List Char) :
    lastO prev (w :: ws) = lastO (some w) ws := by
  cases ws with
  | nil => rfl
  | cons x xs =>
    unfold lastO
    rw [List.getLast?_cons_cons]
    cases h2 : (x :: xs).getLast? with
    | some d => rfl
    | none =>
      exfalso
      rw [List.getLast?_eq_none_iff] at h2
      exact List.noConfusion h2

/-- The scan copies a block of word characters verbatim whenever the
previous character is a word character: the leading word boundary fails at
every position inside the block. -/
theorem paramSubRun_words (name : List Char) (hname : name ≠ []) :
    ∀ (ws : List Char) (prev : Option Char) (t : List Char),
      (∀ c ∈ ws, isWordChar c) → wordO prev = true →
      paramSubRun name prev (ws ++ t) = ws ++ paramSubRun name (lastO prev ws) t := by
  intro ws
  induction ws with
  | nil =>
    intro prev t _ _
    simp [lastO]
  | cons w ws ih =>
    intro prev t hws hprev
    have hw : isWordChar w := hws w (List.mem_cons_self w ws)
    have hword : wordO (some w) = true := hw
    have hmem : ∀ c ∈ ws, isWordChar c :=
      fun c hc => hws c (List.mem_cons_of_mem w hc)
    have hm : paramMatchAt name prev (w :: (ws ++ t)) = false := by
      unfold paramMatchAt
      simp only [List.head?_cons]
      have hb : (wordO prev != wordO (some w)) = false := by
        rw [hprev, hword]
        rfl
      simp [hb]
    rw [List.cons_append, paramSubRun_cons name hname]
    rw [if_neg (by simp [hm])]
    rw [ih (some w) t hmem hword, lastO_cons]
    rfl

/-- Shape of the scan's output: either nothing matched and the subject is
returned verbatim, or the subject splits as `u ++ v` with the first match
at the start of `v`, the prefix `u` copied verbatim, and the scan
continuing after the consumed name. -/
theorem paramSubRun_shape (name : List Char) (hname : name ≠ []) :
    ∀ (k : Nat) (s : List Char), s.length ≤ k → ∀ (prev : Option Char),
      paramSubRun name prev s = s ∨
      ∃ u v, s = u ++ v ∧ paramMatchAt name (lastO prev u) v = true ∧
        paramSubRun name prev s
          = u ++ '_' :: name
              ++ paramSubRun name name.getLast? (v.drop name.length) := by
  intro k
  induction k with
  | zero =>
    intro s hs prev
    have hs0 : s = [] := List.length_eq_zero.mp (Nat.le_zero.mp hs)
    subst hs0
    left
    rfl
  | succ k ih =>
    intro s hs prev
    cases s with
    | nil => left; rfl
    | cons c r =>
      rw [paramSubRun_cons name hname]
      by_cases hm : paramMatchAt name prev (c :: r) = true
      · right
        refine ⟨[], c :: r, rfl, ?_, ?_⟩
        · simpa [lastO] using hm
        · rw [if_pos hm]
          rfl
      · rw [if_neg hm]
        simp only [List.length_cons] at hs
        rcases ih r (by omega) (some c) with h | ⟨u, v, hsplit, hmatch, hout⟩
        · left
          rw [h]
        · right
          refine ⟨c :: u, v, ?_, ?_, ?_⟩
          · rw [List.cons_append, hsplit]
          · rw [lastO_cons]
            exact hmatch
          · rw [hout]
            rfl

/-- `lastO` after a seed character is the last element of the seed-plus-
prefix. -/
theorem lastO_eq_getLast? : ∀ (u : List Char) (c : Char),
    lastO (some c) u = (c :: u).getLast? := by
  intro u
  induction u with
  | nil =>
    intro c
    simp [lastO]
  | cons x xs ih =>
    intro c
    rw [lastO_cons, List.getLast?_cons_cons]
    exact ih x

/-- The last element of a non-empty all-word list is a word character. -/
theorem wordO_getLast?_of_words : ∀ (l : List Char), l ≠ [] →
    (∀ c ∈ l, isWordChar c) → wordO l.getLast? = true := by
  intro l
  induction l with
  | nil => intro h; exact absurd rfl h
  | cons x xs ih =>
    intro _ hall
    cases xs with
    | nil =>
      have : isWordChar x := hall x (List.mem_cons_self x [])
      simpa [wordO] using this
    | cons y ys =>
      rw [List.getLast?_cons_cons]
      exact ih (by simp) (fun c hc => hall c (List.mem_cons_of_mem x hc))

/-- Copying a character whose position did not match cannot create a match
at that position in the output: the scan's insertions land after non-word
characters and inside all-word regions cannot align with the pattern's
word boundary and lookahead at an unmatched position. -/
theorem paramMatchAt_copy (name : List Char) (hname : name ≠ [])
    (hw : ∀ ch ∈ name, isWordChar ch) (prev : Option Char) (c : Char)
    (r : List Char)
    (hnm : paramMatchAt name prev (c :: r) = false) :
    paramMatchAt name prev (c :: paramSubRun name (some c) r) = false := by
  cases hm : paramMatchAt name prev (c :: paramSubRun name (some c) r) with
  | false => rfl
  | true =>
  exfalso
  rcases paramSubRun_shape name hname r.length r (Nat.le_refl _) (some c)
    with hT | ⟨u, v, hsplit, hmatch, hout⟩
  · rw [hT, hnm] at hm
    exact Bool.noConfusion hm
  · set T2 := paramSubRun name name.getLast? (v.drop name.length) with hT2
    have hmatch' := hmatch
    simp only [paramMatchAt, Bool.and_eq_true] at hmatch'
    obtain ⟨⟨⟨hvp, hvbnd⟩, hvtrail⟩, hvlook⟩ := hmatch'
    have hvhead : wordO v.head? = true := by
      have hpre : name <+: v := List.isPrefixOf_iff_prefix.mp hvp
      obtain ⟨t, ht⟩ := hpre
      cases name with
      | nil => exact absurd rfl hname
      | cons nh nt =>
        rw [← ht]
        simp only [List.cons_append, List.head?_cons]
        exact hw nh (List.mem_cons_self _ _)
    have hprev2 : wordO (lastO (some c) u) = false := by
      cases hval : wordO (lastO (some c) u) with
      | false => rfl
      | true =>
        rw [hval, hvhead] at hvbnd
        exact Bool.noConfusion hvbnd
    have hcT : c :: paramSubRun name (some c) r
        = (c :: u) ++ ('_' :: (name ++ T2)) := by
      rw [hout]
      simp
    rw [hcT] at hm
    simp only [paramMatchAt, Bool.and_eq_true] at hm
    obtain ⟨⟨⟨hA, hB⟩, hC⟩, hD⟩ := hm
    have hXlen : (c :: u).length = u.length + 1 := List.length_cons c u
    rcases Nat.lt_trichotomy name.length (u.length + 1) with hkx | hkx | hkx
    · -- name fits strictly inside c :: u
      have hpre : name <+: (c :: u) ++ ('_' :: (name ++ T2)) :=
        List.isPrefixOf_iff_prefix.mp hA
      have htake := List.prefix_iff_eq_take.mp hpre
      rw [List.take_append_eq_append_take] at htake
      have hz : name.length - (c :: u).length = 0 := by
        rw [hXlen]; omega
      rw [hz] at htake
      simp only [List.take_zero, List.append_nil] at htake
      have hpreX : name <+: c :: u := htake ▸ List.take_prefix _ _
      have hApre' : name <+: c :: r := by
        rw [hsplit, ← List.cons_append]
        exact hpreX.trans (List.prefix_append _ _)
      have hA' : name.isPrefixOf (c :: r) = true :=
        List.isPrefixOf_iff_prefix.mpr hApre'
      have hdropT : ((c :: u) ++ ('_' :: (name ++ T2))).drop name.length
          = (c :: u).drop name.length ++ ('_' :: (name ++ T2)) := by
        rw [List.drop_append_eq_append_drop, hz]
        simp
      have hdropR : (c :: r).drop name.length
          = (c :: u).drop name.length ++ v := by
        rw [hsplit, ← List.cons_append, List.drop_append_eq_append_drop, hz]
        simp
      have hPlen : 0 < ((c :: u).drop name.length).length := by
        rw [List.length_drop, hXlen]
        omega
      obtain ⟨p, P', hP⟩ : ∃ p P', (c :: u).drop name.length = p :: P' := by
        cases hcc : (c :: u).drop name.length with
        | nil =>
          rw [hcc] at hPlen
          simp at hPlen
        | cons p P' => exact ⟨p, P', rfl⟩
      have hC' : (wordO name.getLast?
          != wordO ((c :: r).drop name.length).head?) = true := by
        rw [hdropR, hP]
        rw [hdropT, hP] at hC
        simpa using hC
      have hD' : lookAheadPunct ((c :: r).drop name.length) = true := by
        rw [hdropR]
        rw [hdropT] at hD
        unfold lookAheadPunct at hD ⊢
        rw [List.dropWhile_append] at hD ⊢
        by_cases hPe : (((c :: u).drop name.length).dropWhile
            isSpaceChar).isEmpty = true
        · rw [if_pos hPe] at hD
          have hus : isSpaceChar '_' = false := by decide
          rw [List.dropWhile_cons] at hD
          rw [hus] at hD
          simp at hD
        · rw [if_neg hPe] at hD
          rw [if_neg hPe]
          obtain ⟨q, Q', hQ⟩ : ∃ q Q',
              ((c :: u).drop name.length).dropWhile isSpaceChar = q :: Q' := by
            cases hqq : ((c :: u).drop name.length).dropWhile isSpaceChar with
            | nil =>
              rw [hqq] at hPe
              simp at hPe
            | cons q Q' => exact ⟨q, Q', rfl⟩
          rw [hQ] at hD ⊢
          simpa using hD
      have hB' : (wordO prev != wordO (c :: r).head?) = true := by
        simp only [List.cons_append, List.head?_cons] at hB
        simpa using hB
      have hfin : paramMatchAt name prev (c :: r) = true := by
        simp only [paramMatchAt, Bool.and_eq_true]
        exact ⟨⟨⟨hA', hB'⟩, hC'⟩, hD'⟩
      rw [hfin] at hnm
      exact Bool.noConfusion hnm
    · -- name is exactly c :: u: the character after it is the inserted '_'
      have hdropT : ((c :: u) ++ ('_' :: (name ++ T2))).drop name.length
          = '_' :: (name ++ T2) := by
        rw [List.drop_append_eq_append_drop]
        have h1 : (c :: u).drop name.length = [] :=
          List.drop_of_length_le (by rw [hXlen]; omega)
        have h2 : name.length - (c :: u).length = 0 := by
          rw [hXlen]; omega
        rw [h1, h2]
        simp
      rw [hdropT] at hC
      have hlast : wordO name.getLast? = true :=
        wordO_getLast?_of_words name hname hw
      rw [hlast] at hC
      simp only [List.head?_cons] at hC
      have hus : wordO (some '_') = true := by decide
      rw [hus] at hC
      exact Bool.noConfusion hC
    · -- c :: u is a proper prefix of name: all its characters are word
      have hpre : name <+: (c :: u) ++ ('_' :: (name ++ T2)) :=
        List.isPrefixOf_iff_prefix.mp hA
      have htake := List.prefix_iff_eq_take.mp hpre
      rw [List.take_append_eq_append_take] at htake
      have hXfull : (c :: u).take name.length = c :: u :=
        List.take_of_length_le (by rw [hXlen]; omega)
      rw [hXfull] at htake
      have hXpre : (c :: u) <+: name := ⟨_, htake.symm⟩
      have hXsub : ∀ ch ∈ (c :: u), isWordChar ch :=
        fun ch hch => hw ch (hXpre.subset hch)
      have hword : wordO (lastO (some c) u) = true := by
        rw [lastO_eq_getLast?]
        exact wordO_getLast?_of_words (c :: u) (by simp) hXsub
      rw [hword] at hprev2
      exact Bool.noConfusion hprev2

/-- Dropping the head of a non-empty-tailed cons keeps the last element. -/
theorem getLast?_cons_of_ne_nil (a : Char) (l : List Char) (h : l ≠ []) :
    (a :: l).getLast? = l.getLast? := by
  cases l with
  | nil => exact absurd rfl h
  | cons x xs => rw [List.getLast?_cons_cons]


/-- The substitution scan is idempotent: scanning its own output (with the
same starting context) changes nothing.  An inserted `_` always lands
right before a copied occurrence of the all-word `name`, so in the output
every candidate position fails the word boundary or the lookahead. -/
theorem paramSubRun_idem (name : List Char) (hname : name ≠ [])
    (hw : ∀ ch ∈ name, isWordChar ch) :
    ∀ (k : Nat) (s : List Char), s.length ≤ k → ∀ (prev : Option Char),
      paramSubRun name prev (paramSubRun name prev s)
        = paramSubRun name prev s := by
  have hnpos : 0 < name.length := List.length_pos.mpr hname
  intro k
  induction k with
  | zero =>
    intro s hs prev
    have hs0 : s = [] := List.length_eq_zero.mp (Nat.le_zero.mp hs)
    subst hs0
    rfl
  | succ k ih =>
    intro s hs prev
    cases s with
    | nil => rfl
    | cons c r =>
      simp only [List.length_cons] at hs
      rw [paramSubRun_cons name hname prev c r]
      by_cases hm : paramMatchAt name prev (c :: r) = true
      · rw [if_pos hm]
        have hdlen : ((c :: r).drop name.length).length ≤ k := by
          rw [List.length_drop, List.length_cons]
          omega
        have hT2 := ih ((c :: r).drop name.length) hdlen name.getLast?
        have hassoc : ('_' :: name
            ++ paramSubRun name name.getLast? ((c :: r).drop name.length))
            = '_' :: (name
              ++ paramSubRun name name.getLast? ((c :: r).drop name.length)) := by
          simp
        rw [hassoc]
        have hhead : ((('_' :: (name
            ++ paramSubRun name name.getLast? ((c :: r).drop name.length)))).drop
              name.length).head? = name.getLast? := by
          rw [List.head?_drop]
          cases name with
          | nil => exact absurd rfl hname
          | cons nh nt =>
            have : ('_' :: ((nh :: nt)
                ++ paramSubRun (nh :: nt) (nh :: nt).getLast?
                  (((c :: r)).drop (nh :: nt).length)))[(nh :: nt).length]?
                = ((nh :: nt)
                  ++ paramSubRun (nh :: nt) (nh :: nt).getLast?
                    (((c :: r)).drop (nh :: nt).length))[nt.length]? := by
              rw [List.length_cons, List.getElem?_cons_succ]
            rw [this, List.getElem?_append]
            rw [if_pos (by rw [List.length_cons]; omega)]
            rw [List.getLast?_eq_getElem?]
            rw [List.length_cons]
            simp
        have hnm1 : paramMatchAt name prev ('_' :: (name
            ++ paramSubRun name name.getLast? ((c :: r).drop name.length)))
            = false := by
          simp only [paramMatchAt, hhead, bne_self_eq_false, Bool.and_false,
            Bool.false_and]
        rw [paramSubRun_cons name hname]
        rw [if_neg (by rw [hnm1]; exact Bool.false_ne_true)]
        have hwords := paramSubRun_words name hname name (some '_')
          (paramSubRun name name.getLast? ((c :: r).drop name.length))
          hw (by decide)
        rw [hwords]
        have hlastO : lastO (some '_') name = name.getLast? := by
          rw [lastO_eq_getLast?, getLast?_cons_of_ne_nil '_' name hname]
        rw [hlastO, hT2]
      · rw [if_neg hm]
        have hmf : paramMatchAt name prev (c :: r) = false := by
          cases hb : paramMatchAt name prev (c :: r) with
          | false => rfl
          | true => exact absurd hb hm
        have hcopy := paramMatchAt_copy name hname hw prev c r hmf
        rw [paramSubRun_cons name hname]
        rw [if_neg (by rw [hcopy]; exact Bool.false_ne_true)]
        rw [ih r (by omega) (some c)]

/-- The whole-line substitution of line 24 is idempotent for a non-empty
all-word parameter name. -/
theorem py_sub_param_idem (p line : String) (hp : p.data ≠ [])
    (hw : ∀ c ∈ p.data, isWordChar c) :
    py_sub_param p (py_sub_param p line) = py_sub_param p line := by
  have h := paramSubRun_idem p.data hp hw line.data.length line.data
    (Nat.le_refl _) none
  exact congrArg String.mk h

/-- If the line holds no occurrence of the name followed by optional
whitespace and `:`/`,`/`)`, the scan is the identity (every position fails
at least the prefix or lookahead part of the pattern). -/
theorem paramSub_id_of_no_occur (name : List Char) :
    ∀ (s : List Char), hasOccur name s = false →
      ∀ (fuel : Nat) (prev : Option Char), paramSub name fuel prev s = s := by
  intro s
  induction s with
  | nil =>
    intro h fuel prev
    cases fuel <;> rfl
  | cons c r ih =>
    intro h fuel prev
    have h' := h
    simp only [hasOccur, Bool.or_eq_false_iff] at h'
    obtain ⟨h1, h2⟩ := h'
    cases fuel with
    | zero => rfl
    | succ fuel =>
      have hm : paramMatchAt name prev (c :: r) = false := by
        cases hb : paramMatchAt name prev (c :: r) with
        | false => rfl
        | true =>
          exfalso
          simp only [paramMatchAt, Bool.and_eq_true] at hb
          obtain ⟨⟨⟨hA, _⟩, _⟩, hD⟩ := hb
          rw [hA, hD] at h1
          simp at h1
      simp only [paramSub]
      rw [if_neg (by rw [hm]; exact Bool.false_ne_true)]
      rw [ih h2 fuel (some c)]

/-- `fix_unused_param` on an out-of-range 1-based line number: the guard of
lines 14-15 returns `False` and the buffer is untouched. -/
theorem fix_unused_param_out (lines : List String) (n : Int) (p : String)
    (h : n - 1 < 0 ∨ (lines.length : Int) ≤ n - 1) :
    fix_unused_param lines n p = (false, lines) := by
  unfold fix_unused_param
  dsimp only
  rw [if_pos h]

/-- `fix_unused_param` on an in-range line: the result is governed by
whether the substitution changed that line. -/
theorem fix_unused_param_in (lines : List String) (n : Int) (p : String)
    (line : String)
    (h : ¬(n - 1 < 0 ∨ (lines.length : Int) ≤ n - 1))
    (h2 : lines[(n - 1).toNat]? = some line) :
    fix_unused_param lines n p
      = if py_sub_param p line ≠ line
        then (true, lines.set (n - 1).toNat (py_sub_param p line))
        else (false, lines) := by
  unfold fix_unused_param
  dsimp only
  rw [if_neg h]
  simp only [h2]

/-! ## Claim C9 -/

/-- C9: `fix_unused_param` rewrites the buffer exactly when the regex
substitution changed the flagged line, and returns `True` exactly in that
case; a line number below 1 or above the line count, or a flagged line
with no occurrence of the parameter name followed by optional whitespace
and one of `:`, `,`, `)`, yields `False` with the buffer unchanged. -/
theorem claim_C9 (lines : List String) (n : Int) (p : String) :
    ((fix_unused_param lines n p).2 ≠ lines
      ↔ (fix_unused_param lines n p).1 = true)
    ∧ (∀ line, lines[(n - 1).toNat]? = some line →
        ¬(n - 1 < 0 ∨ (lines.length : Int) ≤ n - 1) →
        ((fix_unused_param lines n p).1 = true ↔ py_sub_param p line ≠ line))
    ∧ (n < 1 ∨ (lines.length : Int) < n →
        fix_unused_param lines n p = (false, lines))
    ∧ (∀ line, lines[(n - 1).toNat]? = some line →
        hasOccur p.data line.data = false →
        fix_unused_param lines n p = (false, lines)) := by
  refine ⟨?_, ?_, ?_, ?_⟩
  · by_cases hg : n - 1 < 0 ∨ (lines.length : Int) ≤ n - 1
    · rw [fix_unused_param_out lines n p hg]
      simp
    · cases h2 : lines[(n - 1).toNat]? with
      | none =>
        exfalso
        push_neg at hg
        have hidx : (n - 1).toNat < lines.length := by omega
        rw [List.getElem?_eq_getElem hidx] at h2
        exact Option.noConfusion h2
      | some line =>
        rw [fix_unused_param_in lines n p line hg h2]
        by_cases hc : py_sub_param p line ≠ line
        · rw [if_pos hc]
          have hidx : (n - 1).toNat < lines.length := by
            push_neg at hg
            omega
          have hne : lines.set (n - 1).toNat (py_sub_param p line) ≠ lines := by
            intro he
            have := List.getElem?_set_self (a := py_sub_param p line) hidx
            rw [he, h2] at this
            exact hc ((Option.some.injEq _ _).mp this).symm
          simpa using hne
        · rw [if_neg hc]
          simp
  · intro line h2 hg
    rw [fix_unused_param_in lines n p line hg h2]
    by_cases hc : py_sub_param p line ≠ line
    · rw [if_pos hc]
      simpa using hc
    · rw [if_neg hc]
      simpa using hc
  · intro h
    exact fix_unused_param_out lines n p (by omega)
  · intro line h2 hocc
    by_cases hg : n - 1 < 0 ∨ (lines.length : Int) ≤ n - 1
    · exact fix_unused_param_out lines n p hg
    · rw [fix_unused_param_in lines n p line hg h2]
      have hid : py_sub_param p line = line := by
        have := paramSub_id_of_no_occur p.data line.data hocc
          line.data.length none
        show String.mk _ = line
        rw [this]
      rw [if_neg (not_not_intro hid)]

/-- C9, witness: the out-of-range, no-occurrence and changed-line cases at
concrete inputs. -/
theorem claim_C9_witness :
    fix_unused_param ["ab\n"] 7 "x" = (false, ["ab\n"])
    ∧ fix_unused_param ["ab\n"] 1 "x" = (false, ["ab\n"])
    ∧ ((fix_unused_param ["f(x)\n"] 1 "x").1 = true
        ↔ py_sub_param "x" "f(x)\n" ≠ "f(x)\n") :=
  ⟨(claim_C9 ["ab\n"] 7 "x").2.2.1 (by decide),
   (claim_C9 ["ab\n"] 1 "x").2.2.2 "ab\n" (by decide) (by decide),
   (claim_C9 ["f(x)\n"] 1 "x").2.1 "f(x)\n" (by decide) (by decide)⟩

/-! ## Claim C10 -/

/-- C10: `fix_unused_param` is idempotent — after a successful fix has
prefixed the parameter with an underscore, a second call with the same
file, line number and parameter name changes nothing and returns `False`,
because `\b name \b` cannot match inside `_name` (the underscore is a word
character). -/
theorem claim_C10 (lines lines' : List String) (n : Int) (p : String)
    (hp : p.data ≠ []) (hw : ∀ c ∈ p.data, isWordChar c)
    (h : fix_unused_param lines n p = (true, lines')) :
    fix_unused_param lines' n p = (false, lines') := by
  by_cases hg : n - 1 < 0 ∨ (lines.length : Int) ≤ n - 1
  · rw [fix_unused_param_out lines n p hg] at h
    exact absurd (congrArg Prod.fst h) (by simp)
  · cases h2 : lines[(n - 1).toNat]? with
    | none =>
      exfalso
      push_neg at hg
      have hidx : (n - 1).toNat < lines.length := by omega
      rw [List.getElem?_eq_getElem hidx] at h2
      exact Option.noConfusion h2
    | some line =>
      rw [fix_unused_param_in lines n p line hg h2] at h
      by_cases hc : py_sub_param p line ≠ line
      · rw [if_pos hc] at h
        have hidx : (n - 1).toNat < lines.length := by
          push_neg at hg
          omega
        have hlines' : lines' = lines.set (n - 1).toNat (py_sub_param p line) :=
          (congrArg Prod.snd h).symm
        have hg' : ¬(n - 1 < 0 ∨ (lines'.length : Int) ≤ n - 1) := by
          rw [hlines', List.length_set]
          exact hg
        have h2' : lines'[(n - 1).toNat]? = some (py_sub_param p line) := by
          rw [hlines']
          exact List.getElem?_set_self hidx
        rw [fix_unused_param_in lines' n p (py_sub_param p line) hg' h2']
        have hid : py_sub_param p (py_sub_param p line) = py_sub_param p line :=
          py_sub_param_idem p line hp hw
        rw [if_neg (not_not_intro hid), hlines']
      · rw [if_neg hc] at h
        exact absurd (congrArg Prod.fst h) (by simp)

/-- C10, witness: the second call after the concrete fix of the spec's
example line returns `False` and changes nothing. -/
theorem claim_C10_witness :
    fix_unused_param ["foo(bar: string, _unused: number) \x7b\x7d\n"] 1 "unused"
      = (false, ["foo(bar: string, _unused: number) \x7b\x7d\n"]) :=
  claim_C10 ["foo(bar: string, unused: number) \x7b\x7d\n"]
    ["foo(bar: string, _unused: number) \x7b\x7d\n"] 1 "unused"
    (by decide) (by decide) (by decide)
